import Mathlib

/-!
Verification of the core of the `jvm` repository (a partial Java virtual
machine written in Rust) against its natural-language specification.

The Rust sources are shallowly embedded: machine integers become `Nat`/`Int`
with explicit wrap-arounds, raw memory regions become functions `Nat → Nat`
from byte (or slot) offsets to stored values, and fallible operations return
`Option`/`Except`.  Each definition is translated from one Rust item and is
named after it; the file is organised by source file.
-/

deriving instance DecidableEq for Except

namespace Jvm

/-! ## Types (`src/model/types.rs`)

`JvmType` and `JvmType::size` are translated from `types.rs`.  The layout
code in `field.rs` also calls `JvmType::alignment`, whose definition is not
part of the sources.
-/

inductive JvmType where
  | void
  | byte
  | char
  | integer
  | long
  | float
  | double
  | reference
  | short
  | boolean
deriving DecidableEq, Repr

/-- `JvmType::size` from `types.rs` (byte width of a field of this type). -/
def JvmType.size : JvmType → Nat
  | .void => 0
  | .byte => 1
  | .char => 1
  | .integer => 4
  | .long => 8
  | .float => 4
  | .double => 8
  | .reference => 2
  | .short => 2
  | .boolean => 1

/-- Modelled from the spec: `JvmType::alignment` is called by
`layout_fields` in `field.rs` but its definition is missing from the
sources.  The spec states "Each has a fixed byte size … and alignment equal
to its size", so alignment is defined as `size`. -/
def JvmType.alignment (ty : JvmType) : Nat := ty.size

/-- Slot count a value of this type occupies on the 32-bit operand stack,
as realised by `StackFrame::push_value` / `pop_type` in `stack.rs`
(`push_wide` for long/double, plain `push` otherwise, nothing for void). -/
def JvmType.slots : JvmType → Nat
  | .void => 0
  | .long => 2
  | .double => 2
  | _ => 1

/-! ## Values (`src/model/value.rs`) -/

/-- `JVM_GREATER` from `value.rs`. -/
def JVM_GREATER : Int := 1

/-- `JVM_EQUAL` from `value.rs`. -/
def JVM_EQUAL : Int := 0

/-- `JVM_LESS` from `value.rs`. -/
def JVM_LESS : Int := -1

/-! ## Raw memory

Both the heap (`NativeList<u8>`) and the operand stack (a `*mut u32`
region) are flat native memory.  They are modelled as total functions from
an offset to the stored byte/slot; `std::alloc::alloc` does not initialise
its memory, so theorems either quantify over the initial contents or pick
an explicit concrete initial state.
-/

/-- A raw memory region: offset → stored value (byte or 32-bit slot). -/
abbrev Mem : Type := Nat → Nat

/-- Point update of a memory region (one `*ptr.offset(i) = v` store). -/
def memSet (m : Mem) (i v : Nat) : Mem := fun j => if j = i then v else m j

/-- The all-zero memory region. -/
def memZero : Mem := fun _ => 0

/-- Big-endian byte `k` (0 = most significant) of the 8-byte encoding of
`v`, as produced by `u64::to_be_bytes`. -/
def beByte (v : Nat) (k : Nat) : Nat := v / 2 ^ (8 * (7 - k)) % 256

/-- `u64::from_be_bytes` on eight bytes listed most-significant first. -/
def fromBeBytes8 (b0 b1 b2 b3 b4 b5 b6 b7 : Nat) : Nat :=
  ((((((b0 * 256 + b1) * 256 + b2) * 256 + b3) * 256 + b4) * 256 + b5) * 256 + b6) * 256 + b7

/-! ## Heap (`src/model/heap.rs`)

`Heap` owns a byte region and a bump `tail`.  `instantiate` is translated
statement by statement, including the exact offsets used by
`set_class_index` (which writes bytes at `index+{0,1,2,3,5,6,7,8}`) and the
`Fields::init_from_layout_at` call at `content.get_pointer().offset(8)`.
-/

structure Heap where
  content : Mem
  tail : Nat

/-- `Heap::get_class_index`: `u64::from_be_bytes` of the eight bytes at
`index + 0 .. index + 7`. -/
def Heap.get_class_index (h : Heap) (index : Nat) : Nat :=
  fromBeBytes8 (h.content (index + 0)) (h.content (index + 1)) (h.content (index + 2))
    (h.content (index + 3)) (h.content (index + 4)) (h.content (index + 5))
    (h.content (index + 6)) (h.content (index + 7))

/-- `Heap::set_class_index`: writes `class_index.to_be_bytes()` with the
byte-offset pattern of the source (`bytes[0..3]` go to `index+0..3`,
`bytes[4..7]` go to `index+5..8`; offset `index+4` is never written). -/
def Heap.set_class_index (h : Heap) (index class_index : Nat) : Heap :=
  let c0 := memSet h.content (index + 0) (beByte class_index 0)
  let c1 := memSet c0 (index + 1) (beByte class_index 1)
  let c2 := memSet c1 (index + 2) (beByte class_index 2)
  let c3 := memSet c2 (index + 3) (beByte class_index 3)
  let c4 := memSet c3 (index + 5) (beByte class_index 4)
  let c5 := memSet c4 (index + 6) (beByte class_index 5)
  let c6 := memSet c5 (index + 7) (beByte class_index 6)
  let c7 := memSet c6 (index + 8) (beByte class_index 7)
  { h with content := c7 }

/-! ## Field descriptors and layout (`src/model/visibility.rs`, `src/model/field.rs`) -/

/-- `Visibility` from `visibility.rs`. -/
inductive Visibility where
  | publicV
  | packagePrivate
  | protectedV
  | privateV
deriving DecidableEq, Repr

/-- `JvmValue` from `value.rs`: a machine word viewed at one of the
primitive types.  The source is a Rust `union`; in every modelled code path
it is read back at the type it was written with, so a tagged sum is a
faithful view.  Float and double payloads are carried as their IEEE-754 bit
patterns. -/
inductive JvmValue where
  | void
  | int (v : Int)
  | long (v : Int)
  | float (bits : Nat)
  | double (bits : Nat)
  | reference (v : Nat)
deriving DecidableEq, Repr

/-- `FieldDescriptor` from `field.rs`. -/
structure FieldDescriptor where
  name : String
  visibility : Visibility
  ty : JvmType
  constant_value : Option JvmValue
deriving DecidableEq, Repr

/-- `FieldInfo` from `field.rs`. -/
structure FieldInfo where
  offset : Nat
  ty : JvmType
deriving DecidableEq, Repr

/-- `EmptySpace` from `field.rs`: a run of unused bytes inside a layout. -/
structure EmptySpace where
  index : Nat
  length : Nat
deriving DecidableEq, Repr

/-- Lookup in the model of `HashMap<String, (usize, JvmType)>`
(association list, first match wins; `mapInsert` keeps keys unique). -/
def mapLookup (k : String) : List (String × Nat × JvmType) → Option (Nat × JvmType)
  | [] => none
  | (k', v) :: rest => if k' = k then some v else mapLookup k rest

/-- `HashMap::insert`: replace the value of an existing key, otherwise add
the binding. -/
def mapInsert (k : String) (v : Nat × JvmType) :
    List (String × Nat × JvmType) → List (String × Nat × JvmType)
  | [] => [(k, v)]
  | (k', v') :: rest => if k' = k then (k, v) :: rest else (k', v') :: mapInsert k v rest

/-- `FieldLayout` from `field.rs`. -/
structure FieldLayout where
  length : Nat
  fields : List (String × Nat × JvmType)
  spaces : List EmptySpace
deriving DecidableEq, Repr

/-- `FieldError` from `field.rs`. -/
inductive FieldError where
  | unknownField (name : String)
deriving DecidableEq, Repr

/-- `FieldLayout::empty`. -/
def FieldLayout.empty : FieldLayout := { length := 0, fields := [], spaces := [] }

/-- `FieldLayout::resolve`. -/
def FieldLayout.resolve (l : FieldLayout) (name : String) : Except FieldError FieldInfo :=
  match mapLookup name l.fields with
  | some (offset, ty) => .ok { offset := offset, ty := ty }
  | none => .error (.unknownField name)

/-- `FieldLayout::byte_length`. -/
def FieldLayout.byte_length (l : FieldLayout) : Nat := l.length

/-- One insertion step of a stable descending sort on `JvmType::size`:
an element is placed before the first element of strictly smaller size. -/
def insertBySizeDesc (f : FieldDescriptor) : List FieldDescriptor → List FieldDescriptor
  | [] => [f]
  | g :: gs => if g.ty.size ≤ f.ty.size then f :: g :: gs else g :: insertBySizeDesc f gs

/-- The sort performed by
`fields_to_place.sort_by(|a, b| b.ty.size().cmp(&a.ty.size()))`:
a stable sort in descending size order (ties keep declaration order).
Rust's `sort_by` is stable, and a stable sort under a total preorder has a
unique result, so this insertion sort produces the same list. -/
def sortBySizeDesc : List FieldDescriptor → List FieldDescriptor
  | [] => []
  | f :: fs => insertBySizeDesc f (sortBySizeDesc fs)

/-- The inner `for i in 0..spaces.len()` scan of `layout_fields`: find the
first space whose length is an exact fit (remove it) or a strict surplus
(advance its index and shrink its length), returning the placement offset
and the updated space list. -/
def scanSpaces (size : Nat) : List EmptySpace → Option (Nat × List EmptySpace)
  | [] => none
  | s :: ss =>
    if s.length = size then some (s.index, ss)
    else if size < s.length then
      some (s.index, { index := s.index + size, length := s.length - size } :: ss)
    else
      match scanSpaces size ss with
      | some (o, ss') => some (o, s :: ss')
      | none => none

/-- State threaded through the placement loop of `layout_fields`:
`(field_mappings, spaces, length)`. -/
structure LayoutState where
  field_mappings : List (String × Nat × JvmType)
  spaces : List EmptySpace
  length : Nat

/-- The `'field: for field in fields_to_place` loop of `layout_fields`.
When a free space matches, the source executes `break 'field`, which exits
the **labelled outer loop**: the state is returned without processing the
remaining fields.  When no space matches, the field is appended after
alignment padding (the padding run is pushed as a new space) and the loop
continues with the next field. -/
def placeLoop : List FieldDescriptor → LayoutState → LayoutState
  | [], st => st
  | f :: rest, st =>
    match scanSpaces f.ty.size st.spaces with
    | some (offset, spaces') =>
      { field_mappings := mapInsert f.name (offset, f.ty) st.field_mappings
        spaces := spaces'
        length := st.length }
    | none =>
      let alignment_space :=
        if st.length % f.ty.alignment = 0 then 0
        else f.ty.alignment - st.length % f.ty.alignment
      let spaces' :=
        if st.length % f.ty.alignment = 0 then st.spaces
        else st.spaces ++ [{ index := st.length, length := alignment_space }]
      placeLoop rest
        { field_mappings := mapInsert f.name (st.length + alignment_space, f.ty) st.field_mappings
          spaces := spaces'
          length := st.length + alignment_space + f.ty.size }

/-- `layout_fields` from `field.rs`. -/
def layout_fields (parent_layout : FieldLayout) (fields : List FieldDescriptor) : FieldLayout :=
  let fields_to_place := sortBySizeDesc fields
  let st := placeLoop fields_to_place
    { field_mappings := parent_layout.fields
      spaces := parent_layout.spaces
      length := parent_layout.length }
  { length := st.length, fields := st.field_mappings, spaces := st.spaces }

/-! ## Per-instance field storage (`src/model/field.rs`, `Fields`)

A `Fields` value is a raw pointer into the heap region; it is modelled by
the pair of the heap memory and the base offset the pointer stands for.
-/

/-- Two's-complement bit pattern of an `i32` (`emod` is non-negative). -/
def u32Pat (v : Int) : Nat := (v % (2 ^ 32 : Int)).toNat

/-- Two's-complement bit pattern of an `i64`. -/
def u64Pat (v : Int) : Nat := (v % (2 ^ 64 : Int)).toNat

/-- Big-endian byte `k` (0 = most significant) of a 32-bit pattern, as in
`i32::to_be_bytes`. -/
def beByte4 (pat k : Nat) : Nat := pat / 2 ^ (8 * (3 - k)) % 256

/-- `Fields::set_int`: store the four big-endian bytes of the value at
`base + offset`. -/
def Fields.set_int (m : Mem) (base offset : Nat) (value : Int) : Mem :=
  let pat := u32Pat value
  let m0 := memSet m (base + offset + 0) (beByte4 pat 0)
  let m1 := memSet m0 (base + offset + 1) (beByte4 pat 1)
  let m2 := memSet m1 (base + offset + 2) (beByte4 pat 2)
  memSet m2 (base + offset + 3) (beByte4 pat 3)

/-- `Fields::set_long`: store the eight big-endian bytes of the value. -/
def Fields.set_long (m : Mem) (base offset : Nat) (value : Int) : Mem :=
  let pat := u64Pat value
  let m0 := memSet m (base + offset + 0) (beByte pat 0)
  let m1 := memSet m0 (base + offset + 1) (beByte pat 1)
  let m2 := memSet m1 (base + offset + 2) (beByte pat 2)
  let m3 := memSet m2 (base + offset + 3) (beByte pat 3)
  let m4 := memSet m3 (base + offset + 4) (beByte pat 4)
  let m5 := memSet m4 (base + offset + 5) (beByte pat 5)
  let m6 := memSet m5 (base + offset + 6) (beByte pat 6)
  memSet m6 (base + offset + 7) (beByte pat 7)

/-- `Fields::set_float`: the payload already is the IEEE-754 bit pattern
(`f32::to_be_bytes` writes exactly these four bytes). -/
def Fields.set_float (m : Mem) (base offset : Nat) (bits : Nat) : Mem :=
  let m0 := memSet m (base + offset + 0) (beByte4 bits 0)
  let m1 := memSet m0 (base + offset + 1) (beByte4 bits 1)
  let m2 := memSet m1 (base + offset + 2) (beByte4 bits 2)
  memSet m2 (base + offset + 3) (beByte4 bits 3)

/-- `Fields::set_double`: eight big-endian bytes of the IEEE-754 bit
pattern. -/
def Fields.set_double (m : Mem) (base offset : Nat) (bits : Nat) : Mem :=
  let m0 := memSet m (base + offset + 0) (beByte bits 0)
  let m1 := memSet m0 (base + offset + 1) (beByte bits 1)
  let m2 := memSet m1 (base + offset + 2) (beByte bits 2)
  let m3 := memSet m2 (base + offset + 3) (beByte bits 3)
  let m4 := memSet m3 (base + offset + 4) (beByte bits 4)
  let m5 := memSet m4 (base + offset + 5) (beByte bits 5)
  let m6 := memSet m5 (base + offset + 6) (beByte bits 6)
  memSet m6 (base + offset + 7) (beByte bits 7)

/-- `Fields::set_reference`: eight big-endian bytes of the raw heap
index. -/
def Fields.set_reference (m : Mem) (base offset : Nat) (v : Nat) : Mem :=
  let m0 := memSet m (base + offset + 0) (beByte v 0)
  let m1 := memSet m0 (base + offset + 1) (beByte v 1)
  let m2 := memSet m1 (base + offset + 2) (beByte v 2)
  let m3 := memSet m2 (base + offset + 3) (beByte v 3)
  let m4 := memSet m3 (base + offset + 4) (beByte v 4)
  let m5 := memSet m4 (base + offset + 5) (beByte v 5)
  let m6 := memSet m5 (base + offset + 6) (beByte v 6)
  memSet m6 (base + offset + 7) (beByte v 7)

/-- `JvmValue::int` (union read; all modelled paths read at the written
type). -/
def JvmValue.intVal : JvmValue → Int
  | .int v => v
  | _ => 0

/-- `JvmValue::long`. -/
def JvmValue.longVal : JvmValue → Int
  | .long v => v
  | _ => 0

/-- `JvmValue::float` (bit pattern). -/
def JvmValue.floatVal : JvmValue → Nat
  | .float bits => bits
  | _ => 0

/-- `JvmValue::double` (bit pattern). -/
def JvmValue.doubleVal : JvmValue → Nat
  | .double bits => bits
  | _ => 0

/-- `JvmValue::reference` (raw heap index). -/
def JvmValue.referenceVal : JvmValue → Nat
  | .reference v => v
  | _ => 0

/-- `Fields::set_value`: dispatch on the field type.  The
byte/char/short/boolean arms are `todo!()` in the source (a panic),
modelled as `none`. -/
def Fields.set_value (m : Mem) (base offset : Nat) (ty : JvmType) (value : JvmValue) :
    Option Mem :=
  match ty with
  | .void => some m
  | .integer => some (Fields.set_int m base offset value.intVal)
  | .long => some (Fields.set_long m base offset value.longVal)
  | .float => some (Fields.set_float m base offset value.floatVal)
  | .double => some (Fields.set_double m base offset value.doubleVal)
  | .reference => some (Fields.set_reference m base offset value.referenceVal)
  | _ => none

/-- `Fields::init_from_layout_at`: for every descriptor carrying a
`constant_value`, write it at `layout.resolve(name).unwrap().offset`
(the `unwrap` panic on an unknown name is modelled as `none`). -/
def Fields.init_from_layout_at (m : Mem) (position : Nat) (layout : FieldLayout) :
    List FieldDescriptor → Option Mem
  | [] => some m
  | field :: rest =>
    match field.constant_value with
    | none => Fields.init_from_layout_at m position layout rest
    | some constant_value =>
      match layout.resolve field.name with
      | .error _ => none
      | .ok info =>
        match Fields.set_value m position info.offset field.ty constant_value with
        | none => none
        | some m' => Fields.init_from_layout_at m' position layout rest

/-- The parts of `Class` that `Heap::instantiate` reads: `class.index()`,
`class.field_layout()` and `class.field_descriptors()`. -/
structure ClassInfo where
  index : Nat
  field_layout : FieldLayout
  field_descriptors : List FieldDescriptor

/-- `Heap::instantiate`, translated statement by statement: remember the
tail, write the class tag at the tail (`set_class_index`), run the field
initialiser at `content.get_pointer().offset(8)` — the literal offset `8`
of the source, not `tail + 8` — advance the tail by
`8 + byte_length`, and return the old tail as the heap index. -/
def Heap.instantiate (h : Heap) (c : ClassInfo) : Option (Heap × Nat) :=
  let index := h.tail
  let h1 := h.set_class_index h.tail c.index
  match Fields.init_from_layout_at h1.content 8 c.field_layout c.field_descriptors with
  | none => none
  | some m =>
    some ({ content := m, tail := h.tail + 8 + c.field_layout.byte_length }, index)

/-- The class tag read back by `Heap::resolve` for the instance at `index`
(its `Instance::class`): `get_class_index(index)`. -/
def Heap.resolveClassTag (h : Heap) (index : Nat) : Nat :=
  h.get_class_index index

/-! ## Operand stack and frames (`src/model/stack.rs`)

The operand stack is one shared region of 32-bit slots; a `StackPointer`
is a slot index into that region, and `StackValue` is the `u32` bit
pattern stored in one slot.
-/

/-- `StackValue::from_int`: the `u32` bit pattern of an `i32`. -/
def StackValue.from_int (v : Int) : Nat := u32Pat v

/-- `StackValue::as_int`: reinterpret a `u32` slot as an `i32`. -/
def StackValue.as_int (n : Nat) : Int :=
  if n < 2 ^ 31 then (n : Int) else (n : Int) - 2 ^ 32

/-- `StackValue::from_long`: split the `u64` bit pattern of an `i64` into
`(high, low)` 32-bit words. -/
def StackValue.from_long (v : Int) : Nat × Nat :=
  (u64Pat v / 2 ^ 32, u64Pat v % 2 ^ 32)

/-- `StackValueWide::as_long` on `(high, low)`:
`(high << 32) | low` reinterpreted as an `i64`. -/
def StackValue.as_long (p : Nat × Nat) : Int :=
  let u : Nat := p.1 * 2 ^ 32 + p.2 % 2 ^ 32
  if u < 2 ^ 63 then (u : Int) else (u : Int) - 2 ^ 64

/-- `StackValue::from_double` splits the `f64` bit pattern exactly like
`from_long`. -/
def StackValue.from_double (bits : Nat) : Nat × Nat :=
  (bits / 2 ^ 32 % 2 ^ 32, bits % 2 ^ 32)

/-- `StackFrame` from `stack.rs`: base of the locals region and the
first-free-slot pointer. -/
structure StackFrame where
  frame_base : Nat
  stack_end : Nat
deriving DecidableEq, Repr

/-- The `for i in 0..parameters` copy loop of `StackFrame::prepare`:
`*frame_base.offset(i) = *frame_base.offset(-(parameters) + i)`. -/
def copyParams (base params : Nat) : Nat → Mem → Mem
  | 0, m => m
  | i + 1, m =>
    let m' := copyParams base params i m
    memSet m' (base + i) (m' (base - params + i))

/-- `StackFrame::prepare`: the frame base is the incoming stack pointer,
the stack end is `locals` slots above it, and the `parameters` slots just
below the incoming pointer are copied into the first `parameters` local
slots.  No other slot of the region is written (in particular the locals
`parameters..locals-1` are *not* initialised). -/
def StackFrame.prepare (m : Mem) (stack parameters locals : Nat) : Mem × StackFrame :=
  (copyParams stack parameters parameters m,
   { frame_base := stack, stack_end := stack + locals })

/-- `StackFrame::get_local`. -/
def StackFrame.get_local (m : Mem) (f : StackFrame) (index : Nat) : Nat :=
  m (f.frame_base + index)

/-- `StackFrame::set_local`. -/
def StackFrame.set_local (m : Mem) (f : StackFrame) (index v : Nat) : Mem :=
  memSet m (f.frame_base + index) v

/-- `StackFrame::push`. -/
def StackFrame.push (m : Mem) (f : StackFrame) (v : Nat) : Mem × StackFrame :=
  (memSet m f.stack_end v, { f with stack_end := f.stack_end + 1 })

/-- `StackFrame::push_wide` (first component then second). -/
def StackFrame.push_wide (m : Mem) (f : StackFrame) (p : Nat × Nat) : Mem × StackFrame :=
  let (m1, f1) := StackFrame.push m f p.1
  StackFrame.push m1 f1 p.2

/-- `StackFrame::pop`. -/
def StackFrame.pop (m : Mem) (f : StackFrame) : Nat × StackFrame :=
  (m (f.stack_end - 1), { f with stack_end := f.stack_end - 1 })

/-- `StackFrame::pop_wide`: pop the top, pop the second, return
`(second, top)`. -/
def StackFrame.pop_wide (m : Mem) (f : StackFrame) : (Nat × Nat) × StackFrame :=
  let (top, f1) := StackFrame.pop m f
  let (second, f2) := StackFrame.pop m f1
  ((second, top), f2)

/-- `StackFrame::peek`: the slot `offset + 1` below the stack end. -/
def StackFrame.peek (m : Mem) (f : StackFrame) (offset : Nat) : Nat :=
  m (f.stack_end - (offset + 1))

/-- `StackFrame::push_value`: push a typed value using the slot count of
its type (nothing for void, two slots for long/double).  The
byte/char/short/boolean arms are `todo!()` (a panic) in the source; they
are left as the identity here and are unreachable in every modelled path —
no theorem in this file exercises them. -/
def StackFrame.push_value (m : Mem) (f : StackFrame) (value : JvmValue) (ty : JvmType) :
    Mem × StackFrame :=
  match ty with
  | .void => (m, f)
  | .integer => StackFrame.push m f (StackValue.from_int value.intVal)
  | .long => StackFrame.push_wide m f (StackValue.from_long value.longVal)
  | .float => StackFrame.push m f (value.floatVal % 2 ^ 32)
  | .double => StackFrame.push_wide m f (StackValue.from_double value.doubleVal)
  | .reference => StackFrame.push m f (value.referenceVal % 2 ^ 32)
  | _ => (m, f)

/-! ## The interpreter's call protocol (`src/interpreter/mod.rs`)

A small executable model of the interpreter loop, covering the opcodes the
call-protocol claims need.  Bytecode is modelled as a list of decoded
instructions (the operand bytes of the standard encoding are carried inside
the constructors, and the constant-pool operand of `INVOKESTATIC` is
carried in its already-resolved form — resolution itself is modelled with
the constant pool below).
-/

/-- The opcodes of the mini machine.  `iconst v` stands for the family
`ICONST_M1 .. ICONST_5` (each arm pushes its literal). -/
inductive Op where
  | iconst (v : Int)
  | iload_0
  | ireturn
  | returnOp
  | invokestatic (method_index : Nat)
deriving DecidableEq, Repr

/-- The fields of `MethodData` (from `method.rs`) the call protocol
reads. -/
structure MethodData where
  argument_count : Nat
  max_locals : Nat
  code : List Op
  return_type : JvmType
deriving Repr

/-- The interpreter loop `interpret` of `interpreter/mod.rs`, fuelled.
`INVOKESTATIC` follows the source lines 907–926: resolve the callee, run
`call_method` at `stack.get_stack_for_call()` (the current stack end) —
which itself runs `StackFrame::prepare`, the callee body and
`StackFrame::clear` — and afterwards push the return value onto the
caller's frame.  No argument slots are popped by the caller. -/
def interpret : Nat → List MethodData → MethodData → Mem → StackFrame → Nat →
    Option (JvmValue × Mem × StackFrame)
  | 0, _, _, _, _, _ => none
  | fuel + 1, methods, method, m, frame, pc =>
    match method.code.get? pc with
    | none => none
    | some op =>
      match op with
      | .iconst v =>
        let (m', f') := StackFrame.push m frame (StackValue.from_int v)
        interpret fuel methods method m' f' (pc + 1)
      | .iload_0 =>
        let (m', f') := StackFrame.push m frame (StackFrame.get_local m frame 0)
        interpret fuel methods method m' f' (pc + 1)
      | .ireturn =>
        let (v, f') := StackFrame.pop m frame
        some (.int (StackValue.as_int v), m, f')
      | .returnOp => some (.void, m, frame)
      | .invokestatic mi =>
        match methods.get? mi with
        | none => none
        | some callee =>
          let (m1, cframe) := StackFrame.prepare m frame.stack_end
            callee.argument_count callee.max_locals
          match interpret fuel methods callee m1 cframe 0 with
          | none => none
          | some (ret, m2, _) =>
            let (m3, f') := StackFrame.push_value m2 frame ret callee.return_type
            interpret fuel methods method m3 f' (pc + 1)

/-- `call_method` / `interpret_method` / the interpreter trampoline: call
the method at `method_index` with the given stack pointer — prepare a
frame, interpret the body, clear the frame, return the value.  The
caller's own pointers are untouched. -/
def call_method (fuel : Nat) (methods : List MethodData) (mi : Nat) (m : Mem) (stack : Nat) :
    Option (JvmValue × Mem) :=
  match methods.get? mi with
  | none => none
  | some method =>
    let (m1, frame) := StackFrame.prepare m stack method.argument_count method.max_locals
    match interpret fuel methods method m1 frame 0 with
    | none => none
    | some (v, m2, _) => some (v, m2)

/-- The `INVOKESTATIC` arm of `interpret` as a function of the caller's
frame (source lines 907–926): resolve the callee (here: index the method
table), read its return type, run `call_method` at the caller's stack end,
and push the return value.  This is the complete caller-side effect of a
static call. -/
def invokestaticStep (fuel : Nat) (methods : List MethodData) (mi : Nat) (m : Mem)
    (frame : StackFrame) : Option (Mem × StackFrame) :=
  match methods.get? mi with
  | none => none
  | some callee =>
    match call_method fuel methods mi m frame.stack_end with
    | none => none
    | some (ret, m') => some (StackFrame.push_value m' frame ret callee.return_type)

/-! ## Comparison opcodes (`src/interpreter/mod.rs`, lines 627–694)

The float/double comparison arms branch on
`op1.0.is_nan() || op2.0.is_nan()`, `op1 > op2` and `op1 == op2`.  For two
IEEE-754 operands exactly one of *unordered* (either is NaN), *greater*,
*equal*, *less* holds, so the pair of popped operands is abstracted by its
comparison outcome; each arm below is the literal if-chain of its source
arm applied to that outcome.
-/

/-- The IEEE-754 comparison outcome of the two popped floating operands
(`unordered` iff either operand is NaN). -/
inductive FloatCmp where
  | lt
  | eq
  | gt
  | unordered
deriving DecidableEq, Repr

/-- The `FCMPG` arm: NaN → `JVM_GREATER`, then greater/equal/less. -/
def interpFCMPG (o : FloatCmp) : Int :=
  if o = .unordered then JVM_GREATER
  else if o = .gt then JVM_GREATER
  else if o = .eq then JVM_EQUAL
  else JVM_LESS

/-- The `FCMPL` arm exactly as in the source: NaN → `JVM_LESS`, greater →
`JVM_GREATER`, equal → `JVM_LESS`, otherwise `JVM_EQUAL`. -/
def interpFCMPL (o : FloatCmp) : Int :=
  if o = .unordered then JVM_LESS
  else if o = .gt then JVM_GREATER
  else if o = .eq then JVM_LESS
  else JVM_EQUAL

/-- The `DCMPG` arm: NaN → `JVM_GREATER`, then greater/equal/less. -/
def interpDCMPG (o : FloatCmp) : Int :=
  if o = .unordered then JVM_GREATER
  else if o = .gt then JVM_GREATER
  else if o = .eq then JVM_EQUAL
  else JVM_LESS

/-- The `DCMPL` arm: NaN → `JVM_LESS`, then greater/equal, otherwise
`JVM_LESS`. -/
def interpDCMPL (o : FloatCmp) : Int :=
  if o = .unordered then JVM_LESS
  else if o = .gt then JVM_GREATER
  else if o = .eq then JVM_EQUAL
  else JVM_LESS

/-- The `LCMP` arm on the two popped `i64` operands (`op1` was pushed
first): `if op1 > op2 { GREATER } else if op1 == op2 { EQUAL } else
{ LESS }`. -/
def interpLCMP (op1 op2 : Int) : Int :=
  if op1 > op2 then JVM_GREATER
  else if op1 = op2 then JVM_EQUAL
  else JVM_LESS

/-! ## Integer division and remainder (`src/interpreter/mod.rs`,
lines 434–445 and 458–469)

`IDIV`/`LDIV` use `wrapping_div`; `IREM`/`LREM` use the `%` operator.
Division by zero is a Rust panic (the spec's abstract failure), modelled
as `none`.  Overflowing results take their two's-complement wrapped value
(the semantics of `wrapping_div`, and of `%` in an overflow-unchecked
build).
-/

/-- Two's-complement wrap into the `i32` range. -/
def wrap32 (z : Int) : Int := (z + 2 ^ 31) % 2 ^ 32 - 2 ^ 31

/-- Two's-complement wrap into the `i64` range. -/
def wrap64 (z : Int) : Int := (z + 2 ^ 63) % 2 ^ 64 - 2 ^ 63

/-- The `IDIV` arm on the popped operands (`op1` pushed first):
`op1.wrapping_div(op2)`, with truncated (round-toward-zero) division. -/
def interpIDIV (op1 op2 : Int) : Option Int :=
  if op2 = 0 then none else some (wrap32 (Int.tdiv op1 op2))

/-- The `IREM` arm: `op1 % op2` (Rust truncated remainder, wrapped). -/
def interpIREM (op1 op2 : Int) : Option Int :=
  if op2 = 0 then none else some (wrap32 (Int.tmod op1 op2))

/-- The `LDIV` arm: `op1.wrapping_div(op2)` on `i64`. -/
def interpLDIV (op1 op2 : Int) : Option Int :=
  if op2 = 0 then none else some (wrap64 (Int.tdiv op1 op2))

/-- The `LREM` arm: `op1 % op2` on `i64`. -/
def interpLREM (op1 op2 : Int) : Option Int :=
  if op2 = 0 then none else some (wrap64 (Int.tmod op1 op2))

/-! ## The native-code compiler (`src/jit/mod.rs`)

The generated machine code operates on the same slot region through `r12`
(the shared stack pointer).  Each emitter's effect on `(memory, r12)` is
modelled in slot units: `push_constant` is `mov DWORD [r12], v; add r12,
4`, `push_wide_constant` is `mov DWORD [r12], value.0; mov DWORD [r12+4],
value.0; add r12, 8` — the source writes `value.0` into **both** slots —
and `pop` is `sub r12, 4; mov eax, [r12]`.
-/

/-- Effect of the machine code emitted by `push_constant`. -/
def jitPushConstant (m : Mem) (sp : Nat) (v : Nat) : Mem × Nat :=
  (memSet m sp v, sp + 1)

/-- Effect of the machine code emitted by `push_wide_constant`: the first
component of the pair is stored at `[r12]` **and** at `[r12 + 4]`. -/
def jitPushWideConstant (m : Mem) (sp : Nat) (p : Nat × Nat) : Mem × Nat :=
  (memSet (memSet m sp p.1) (sp + 1) p.1, sp + 2)

/-- Effect of the machine code emitted by `pop` (return value goes to
`rax`; only the pointer moves in the slot region). -/
def jitPop (m : Mem) (sp : Nat) : Mem × Nat :=
  (m, sp - 1)

/-- The opcodes implemented by both engines, with operands decoded and the
`LDC` family's loadable constant already fetched (`get_loadable` is shared
by both engines). -/
inductive COp where
  | iconst (v : Int)
  | lconst (v : Int)
  | fconst (bits : Nat)
  | dconst (bits : Nat)
  | bipush (v : Int)
  | sipush (v : Int)
  | ldc (ty : JvmType) (value : JvmValue)
  | ireturn
  | returnOp
deriving DecidableEq, Repr

/-- The interpreter's effect on `(slot memory, top-of-stack pointer)` for
each shared opcode, from the corresponding arms of `interpret`
(`stack.push`, `stack.push_wide`, `stack.push_value`, `stack.pop`);
`none` models the `todo!()` arms of `push_value`. -/
def interpOpEffect (op : COp) (m : Mem) (sp : Nat) : Option (Mem × Nat) :=
  let asFrame : StackFrame := { frame_base := 0, stack_end := sp }
  match op with
  | .iconst v =>
    let (m', f') := StackFrame.push m asFrame (StackValue.from_int v)
    some (m', f'.stack_end)
  | .lconst v =>
    let (m', f') := StackFrame.push_wide m asFrame (StackValue.from_long v)
    some (m', f'.stack_end)
  | .fconst bits =>
    let (m', f') := StackFrame.push m asFrame bits
    some (m', f'.stack_end)
  | .dconst bits =>
    let (m', f') := StackFrame.push_wide m asFrame (StackValue.from_double bits)
    some (m', f'.stack_end)
  | .bipush v =>
    let (m', f') := StackFrame.push m asFrame (StackValue.from_int v)
    some (m', f'.stack_end)
  | .sipush v =>
    let (m', f') := StackFrame.push m asFrame (StackValue.from_int v)
    some (m', f'.stack_end)
  | .ldc ty value =>
    match ty with
    | .byte => none
    | .char => none
    | .short => none
    | .boolean => none
    | _ =>
      let (m', f') := StackFrame.push_value m asFrame value ty
      some (m', f'.stack_end)
  | .ireturn =>
    let (_, f') := StackFrame.pop m asFrame
    some (m, f'.stack_end)
  | .returnOp => some (m, sp)

/-- `push_constant_type` from `jit/mod.rs` (`none` models its `todo!()`
arms, which include `void`). -/
def jitPushConstantType (m : Mem) (sp : Nat) (value : JvmValue) (ty : JvmType) :
    Option (Mem × Nat) :=
  match ty with
  | .integer => some (jitPushConstant m sp (StackValue.from_int value.intVal))
  | .long => some (jitPushWideConstant m sp (StackValue.from_long value.longVal))
  | .float => some (jitPushConstant m sp (value.floatVal % 2 ^ 32))
  | .double => some (jitPushWideConstant m sp (StackValue.from_double value.doubleVal))
  | .reference => some (jitPushConstant m sp (value.referenceVal % 2 ^ 32))
  | _ => none

/-- The effect of the machine code `compile_method` emits for each shared
opcode on the shared slot region, from the corresponding arms of its
compilation loop. -/
def jitOpEffect (op : COp) (m : Mem) (sp : Nat) : Option (Mem × Nat) :=
  match op with
  | .iconst v => some (jitPushConstant m sp (StackValue.from_int v))
  | .lconst v => some (jitPushWideConstant m sp (StackValue.from_long v))
  | .fconst bits => some (jitPushConstant m sp bits)
  | .dconst bits => some (jitPushWideConstant m sp (StackValue.from_double bits))
  | .bipush v => some (jitPushConstant m sp (StackValue.from_int v))
  | .sipush v => some (jitPushConstant m sp (StackValue.from_int v))
  | .ldc ty value => jitPushConstantType m sp value ty
  | .ireturn => some (jitPop m sp)
  | .returnOp => some (m, sp)

/-! ## Constant pool (`src/model/constant_pool.rs`) and resolution
(`src/model/class.rs`)

The pool is the entry vector; resolution functions take the pool and
return it (possibly with one entry replaced in place by
`update_resolved_*`) alongside the result — the explicit state-passing
form of the source's interior mutation.
-/

/-- `FieldReference` from `constant_pool.rs`. -/
inductive FieldReference where
  | unresolved (cls name_and_type : Nat)
  | resolved (info : FieldInfo) (cls : Nat)
deriving DecidableEq, Repr

/-- `MethodReference` from `constant_pool.rs`. -/
inductive MethodReference where
  | unresolved (cls name_and_type : Nat)
  | resolvedStatic (index parameter_count : Nat)
  | resolvedVirtual (method_index virtual_index parameter_count : Nat)
deriving DecidableEq, Repr

/-- `ConstantPoolEntry` from `constant_pool.rs` (float/double literals are
carried as IEEE-754 bit patterns). -/
inductive ConstantPoolEntry where
  | utf8 (s : String)
  | integer (v : Int)
  | long (v : Int)
  | float (bits : Nat)
  | double (bits : Nat)
  | stringEntry (s : String)
  | classRef (name : Nat)
  | fieldReference (r : FieldReference)
  | methodReference (r : MethodReference)
  | interfaceMethodReference (cls name_and_type : Nat)
  | nameAndType (name ty : Nat)
  | empty
deriving DecidableEq, Repr

/-- `ConstantPoolError` from `constant_pool.rs`. -/
inductive ConstantPoolError where
  | missingEntry (i : Nat)
  | notLoadable (i : Nat)
  | fieldNotResolvable (i : Nat)
  | typeNotResolvable (i : Nat)
  | invalidType (i : Nat)
  | methodNotResolvable (i : Nat)
  | notAnUtf8String (i : Nat) (e : ConstantPoolEntry)
  | notAClassReference (i : Nat) (e : ConstantPoolEntry)
  | notNameAndType (i : Nat) (e : ConstantPoolEntry)
deriving DecidableEq, Repr

/-- The pool's entry vector. -/
abbrev ConstantPool : Type := List ConstantPoolEntry

/-- `ConstantPool::get`: index `i` reads `entries[i - 1]`.  Index `0`
wraps (`u16` subtraction) far out of range and always misses, so it is
returned as `MissingEntry` directly. -/
def ConstantPool.get (pool : ConstantPool) (index : Nat) :
    Except ConstantPoolError ConstantPoolEntry :=
  if index = 0 then .error (.missingEntry index)
  else
    match pool.get? (index - 1) with
    | some e => .ok e
    | none => .error (.missingEntry index)

/-- `ConstantPool::get_utf8`. -/
def ConstantPool.get_utf8 (pool : ConstantPool) (index : Nat) :
    Except ConstantPoolError String :=
  match pool.get index with
  | .error e => .error e
  | .ok (.utf8 s) => .ok s
  | .ok e => .error (.notAnUtf8String index e)

/-- `ConstantPool::get_class`. -/
def ConstantPool.get_class (pool : ConstantPool) (index : Nat) :
    Except ConstantPoolError Nat :=
  match pool.get index with
  | .error e => .error e
  | .ok (.classRef name) => .ok name
  | .ok e => .error (.notAClassReference index e)

/-- `ConstantPool::get_name_and_type`. -/
def ConstantPool.get_name_and_type (pool : ConstantPool) (index : Nat) :
    Except ConstantPoolError (Nat × Nat) :=
  match pool.get index with
  | .error e => .error e
  | .ok (.nameAndType name ty) => .ok (name, ty)
  | .ok e => .error (.notNameAndType index e)

/-- `ConstantPool::get_method`. -/
def ConstantPool.get_method (pool : ConstantPool) (index : Nat) :
    Except ConstantPoolError MethodReference :=
  match pool.get index with
  | .error e => .error e
  | .ok (.methodReference r) => .ok r
  | .ok _ => .error (.methodNotResolvable index)

/-- `ConstantPool::resolve_type`. -/
def ConstantPool.resolve_type (pool : ConstantPool) (index : Nat) :
    Except ConstantPoolError String :=
  match pool.get index with
  | .error e => .error e
  | .ok (.classRef name) => pool.get_utf8 name
  | .ok _ => .error (.typeNotResolvable index)

/-- `ConstantPool::update_resolved_field`: replace `entries[i - 1]` in
place by the resolved form. -/
def ConstantPool.update_resolved_field (pool : ConstantPool) (index : Nat)
    (info : FieldInfo) (cls : Nat) : ConstantPool :=
  pool.set (index - 1) (.fieldReference (.resolved info cls))

/-- `ConstantPool::update_resolved_static_method`. -/
def ConstantPool.update_resolved_static_method (pool : ConstantPool) (index : Nat)
    (method parameter_count : Nat) : ConstantPool :=
  pool.set (index - 1) (.methodReference (.resolvedStatic method parameter_count))

/-- `ConstantPool::update_resolved_virtual_method`: replace
`entries[i - 1]` in place by the resolved-virtual form. -/
def ConstantPool.update_resolved_virtual_method (pool : ConstantPool) (index : Nat)
    (method_index virtual_index parameter_count : Nat) : ConstantPool :=
  pool.set (index - 1)
    (.methodReference (.resolvedVirtual method_index virtual_index parameter_count))

/-- The parts of `Class` that field/method resolution reads: the class
index, the instance field layout, the static method map
(name → (method index, parameter count)) and the virtual method map
(name → (method index, virtual index, parameter count)). -/
structure ClassR where
  index : Nat
  field_layout : FieldLayout
  static_methods : List (String × Nat × Nat)
  virtual_methods : List (String × Nat × Nat × Nat)

/-- Lookup in the static-method map. -/
def ClassR.static_method (c : ClassR) (name : String) : Option (Nat × Nat) :=
  match c.static_methods.find? (fun p => p.1 = name) with
  | some p => some p.2
  | none => none

/-- Lookup in the virtual-method map. -/
def ClassR.virtual_method (c : ClassR) (name : String) : Option (Nat × Nat × Nat) :=
  match c.virtual_methods.find? (fun p => p.1 = name) with
  | some p => some p.2
  | none => none

/-- `FieldError` from `class.rs` (named apart from the `field.rs` error of
the same name).  `classLoadFailed` models the `unwrap` panic inside
`ClassLibrary::resolve_by_name` when the referenced class cannot be
loaded: resolution stops before any pool update. -/
inductive ClassFieldError where
  | fieldNotResolvable (e : FieldError)
  | staticFieldNotFound (name : String)
  | constantPool (e : ConstantPoolError)
  | classLoadFailed (name : String)
deriving DecidableEq, Repr

/-- `MethodError` from `class.rs`, plus the modelled load panic. -/
inductive MethodErrorR where
  | unknownVirtual (name : String)
  | notVirtual (i : Nat)
  | unknownStatic (name : String)
  | notStatic (i : Nat)
  | constantPool (e : ConstantPoolError)
  | classLoadFailed (name : String)
deriving DecidableEq, Repr

/-- `Class::resolve_instance_field` (class.rs lines 168–203).  The class
library is abstracted to the name → class mapping that
`resolve_by_name` realises; the heap/method-table/stack parameters do not
touch the pool.  Returns the result together with the pool, which is
updated in place exactly when resolution succeeds via the unresolved
path. -/
def resolve_instance_field (classes : String → Option ClassR) (pool : ConstantPool)
    (index : Nat) : Except ClassFieldError FieldInfo × ConstantPool :=
  match pool.get index with
  | .error e => (.error (.constantPool e), pool)
  | .ok (.fieldReference (.resolved info _)) => (.ok info, pool)
  | .ok (.fieldReference (.unresolved cls name_and_type)) =>
    (match pool.get_name_and_type name_and_type with
     | .error e => (.error (.constantPool e), pool)
     | .ok (nameIdx, _tyIdx) =>
       match pool.get_utf8 nameIdx with
       | .error e => (.error (.constantPool e), pool)
       | .ok name =>
         match pool.get_class cls with
         | .error e => (.error (.constantPool e), pool)
         | .ok clsNameIdx =>
           match pool.get_utf8 clsNameIdx with
           | .error e => (.error (.constantPool e), pool)
           | .ok callee_class_name =>
             match classes callee_class_name with
             | none => (.error (.classLoadFailed callee_class_name), pool)
             | some callee_class =>
               match callee_class.field_layout.resolve name with
               | .error e => (.error (.fieldNotResolvable e), pool)
               | .ok info =>
                 (.ok info,
                  pool.update_resolved_field index info callee_class.index))
  | .ok _ => (.error (.constantPool (.fieldNotResolvable index)), pool)

/-- `Class::resolve_static_method` (class.rs lines 282–315), in the same
state-passing form. -/
def resolve_static_method (classes : String → Option ClassR) (pool : ConstantPool)
    (index : Nat) : Except MethodErrorR (Nat × Nat) × ConstantPool :=
  match pool.get_method index with
  | .error e => (.error (.constantPool e), pool)
  | .ok (.resolvedStatic idx parameter_count) => (.ok (idx, parameter_count), pool)
  | .ok (.unresolved cls name_and_type) =>
    (match pool.get_name_and_type name_and_type with
     | .error e => (.error (.constantPool e), pool)
     | .ok (nameIdx, _tyIdx) =>
       match pool.resolve_type cls with
       | .error e => (.error (.constantPool e), pool)
       | .ok callee_class =>
         match pool.get_utf8 nameIdx with
         | .error e => (.error (.constantPool e), pool)
         | .ok name =>
           match classes callee_class with
           | none => (.error (.classLoadFailed callee_class), pool)
           | some c =>
             match c.static_method name with
             | none => (.error (.unknownStatic name), pool)
             | some method =>
               (.ok method,
                pool.update_resolved_static_method index method.1 method.2))
  | .ok (.resolvedVirtual _ _ _) => (.error (.notStatic index), pool)

/-- `Class::resolve_virtual_method_statically` (class.rs lines 321–358,
the `INVOKESPECIAL` resolver), in the same state-passing form.  Its match
covers `ResolvedStatic` and `Unresolved`; the unresolved path looks the
name up in the callee's **virtual** method map and stores a
`ResolvedVirtual` entry, yet the only arm the stored form can hit on a
later call is the catch-all `_ => Err(MethodError::NotStatic(index))`. -/
def resolve_virtual_method_statically (classes : String → Option ClassR)
    (pool : ConstantPool) (index : Nat) :
    Except MethodErrorR (Nat × Nat) × ConstantPool :=
  match pool.get_method index with
  | .error e => (.error (.constantPool e), pool)
  | .ok (.resolvedStatic idx parameter_count) => (.ok (idx, parameter_count), pool)
  | .ok (.unresolved cls name_and_type) =>
    (match pool.get_name_and_type name_and_type with
     | .error e => (.error (.constantPool e), pool)
     | .ok (nameIdx, _tyIdx) =>
       match pool.resolve_type cls with
       | .error e => (.error (.constantPool e), pool)
       | .ok callee_class =>
         match pool.get_utf8 nameIdx with
         | .error e => (.error (.constantPool e), pool)
         | .ok name =>
           match classes callee_class with
           | none => (.error (.classLoadFailed callee_class), pool)
           | some c =>
             match c.virtual_method name with
             | none => (.error (.unknownStatic name), pool)
             | some (method_index, virtual_index, parameter_count) =>
               (.ok (method_index, parameter_count),
                pool.update_resolved_virtual_method index
                  method_index virtual_index parameter_count))
  | .ok (.resolvedVirtual _ _ _) => (.error (.notStatic index), pool)

/-! ## Class loading (`src/model/class_library.rs`)

`ClassLibrary::load` is modelled as a small-step relation over the
library's observable state, with one step per statement group of `load`:

* `start` — a load begins (byte fetch, parsing, class construction;
  lines 72–104);
* `register` — lines 105–110: the class is inserted into `name_mappings`
  under the next index and pushed onto `classes` (the source comment
  requires these statements not to be interleaved with library accesses,
  so they form one step);
* `clinitStart` — line 112: `bootstrap` is entered and the class's
  `<clinit>` starts executing through the interpreter;
* `finish` — `bootstrap` returns and `load` returns `Ok(index)`.

Supertype loading recurses before `register`; for the properties at stake
the recursion is covered by letting any number of loads run
sequentially. -/

/-- Where inside `ClassLibrary::load` the current (innermost) load
stands. -/
inductive LoadPhase where
  | idle
  | parsing (name : String)
  | registered (name : String) (idx : Nat)
  | clinitRunning (name : String) (idx : Nat)
deriving DecidableEq, Repr

/-- Observable state of the `ClassLibrary`: the name → index map, the
class vector (by name), and the set of class indices whose `<clinit>` has
returned. -/
structure LibState where
  name_mappings : List (String × Nat)
  classes : List String
  clinitDone : List Nat
  phase : LoadPhase
deriving DecidableEq, Repr

/-- One step of `ClassLibrary::load`. -/
inductive LoadStep : LibState → LibState → Prop where
  | start (s : LibState) (name : String) (h : s.phase = .idle) :
      LoadStep s { s with phase := .parsing name }
  | register (s : LibState) (name : String) (h : s.phase = .parsing name) :
      LoadStep s
        { name_mappings := (name, s.classes.length) :: s.name_mappings
          classes := s.classes ++ [name]
          clinitDone := s.clinitDone
          phase := .registered name s.classes.length }
  | clinitStart (s : LibState) (name : String) (idx : Nat)
      (h : s.phase = .registered name idx) :
      LoadStep s { s with phase := .clinitRunning name idx }
  | finish (s : LibState) (name : String) (idx : Nat)
      (h : s.phase = .clinitRunning name idx) :
      LoadStep s { s with clinitDone := idx :: s.clinitDone, phase := .idle }

/-- The empty library (`ClassLibrary::new`). -/
def LibState.init : LibState :=
  { name_mappings := [], classes := [], clinitDone := [], phase := .idle }

/-- States reachable by the loading step relation from the empty
library. -/
def LibReachable (s : LibState) : Prop :=
  Relation.ReflTransGen LoadStep LibState.init s

/-- A class is retrievable through the library when its name is in the
name map (`resolve_by_name` returns it without loading). -/
def LibState.retrievable (s : LibState) (name : String) (idx : Nat) : Prop :=
  (name, idx) ∈ s.name_mappings

/-- Invariant of the loading step relation: every mapped class either has
a completed `<clinit>`, or is the class of the load currently between
registration and the return of its `<clinit>`. -/
def LibInv (s : LibState) : Prop :=
  ∀ p ∈ s.name_mappings,
    p.2 ∈ s.clinitDone ∨ s.phase = .registered p.1 p.2 ∨ s.phase = .clinitRunning p.1 p.2

/-! ## Concrete inputs used by witnesses and counterexamples -/

/-- A class environment with a class `F` owning an `int x` instance field
at offset 0 and a class `C` owning a static method `m` (method index 9,
no parameters) and a virtual method `v` (method index 11, virtual index 2,
one parameter slot). -/
def classesW : String → Option ClassR := fun n =>
  if n = "F" then some ⟨7, ⟨4, [("x", (0, .integer))], []⟩, [], []⟩
  else if n = "C" then some ⟨8, FieldLayout.empty, [("m", (9, 0))], [("v", (11, 2, 1))]⟩
  else none

/-- A pool whose entry 6 is an unresolved field reference to `F.x`. -/
def fieldPoolW : ConstantPool :=
  [.utf8 "F", .utf8 "x", .utf8 "I", .classRef 1, .nameAndType 2 3,
   .fieldReference (.unresolved 4 5)]

/-- `fieldPoolW` after entry 6 has been resolved in place. -/
def fieldPoolW2 : ConstantPool :=
  [.utf8 "F", .utf8 "x", .utf8 "I", .classRef 1, .nameAndType 2 3,
   .fieldReference (.resolved ⟨0, .integer⟩ 7)]

/-- A pool whose entry 6 is an unresolved field reference with a dangling
name-and-type index (resolution fails at `get_name_and_type`). -/
def badFieldPoolW : ConstantPool :=
  [.utf8 "F", .utf8 "x", .utf8 "I", .classRef 1, .nameAndType 2 3,
   .fieldReference (.unresolved 4 99)]

/-- A pool whose entry 6 is an unresolved method reference to `C.m`. -/
def methodPoolW : ConstantPool :=
  [.utf8 "C", .utf8 "m", .utf8 "()I", .classRef 1, .nameAndType 2 3,
   .methodReference (.unresolved 4 5)]

/-- `methodPoolW` after entry 6 has been resolved in place. -/
def methodPoolW2 : ConstantPool :=
  [.utf8 "C", .utf8 "m", .utf8 "()I", .classRef 1, .nameAndType 2 3,
   .methodReference (.resolvedStatic 9 0)]

/-- A pool whose entry 6 is an unresolved method reference to the virtual
method `C.v` (as an `INVOKESPECIAL` operand would name a constructor or
private method). -/
def vMethodPoolW : ConstantPool :=
  [.utf8 "C", .utf8 "v", .utf8 "(I)I", .classRef 1, .nameAndType 2 3,
   .methodReference (.unresolved 4 5)]

/-- `vMethodPoolW` after entry 6 has been resolved in place by
`resolve_virtual_method_statically` (a `ResolvedVirtual` entry). -/
def vMethodPoolW2 : ConstantPool :=
  [.utf8 "C", .utf8 "v", .utf8 "(I)I", .classRef 1, .nameAndType 2 3,
   .methodReference (.resolvedVirtual 11 2 1)]

/-- Loader state after `start "A"`. -/
def libS1 : LibState :=
  { name_mappings := []
    classes := []
    clinitDone := []
    phase := .parsing "A" }

/-- Loader state after registration of `A` (lines 105–110 of `load`). -/
def libS2 : LibState :=
  { name_mappings := [("A", 0)]
    classes := ["A"]
    clinitDone := []
    phase := .registered "A" 0 }

/-- Loader state while `A`'s `<clinit>` is executing. -/
def libS3 : LibState :=
  { name_mappings := [("A", 0)]
    classes := ["A"]
    clinitDone := []
    phase := .clinitRunning "A" 0 }

/-- Loader state after `A`'s load has returned. -/
def libS4 : LibState :=
  { name_mappings := [("A", 0)]
    classes := ["A"]
    clinitDone := [0]
    phase := .idle }

/-! ## Helper lemmas -/

theorem mem_insertBySizeDesc {f g : FieldDescriptor} {l : List FieldDescriptor}
    (h : g ∈ insertBySizeDesc f l) : g = f ∨ g ∈ l := by
  induction l with
  | nil => simpa [insertBySizeDesc] using h
  | cons a as ih =>
    simp only [insertBySizeDesc] at h
    by_cases hc : a.ty.size ≤ f.ty.size
    · rcases (by simpa [hc] using h : g = f ∨ g = a ∨ g ∈ as) with h1 | h1 | h1
      · exact Or.inl h1
      · exact Or.inr (by simp [h1])
      · exact Or.inr (by simp [h1])
    · rcases (by simpa [hc] using h : g = a ∨ g ∈ insertBySizeDesc f as) with h1 | h1
      · exact Or.inr (by simp [h1])
      · rcases ih h1 with h2 | h2
        · exact Or.inl h2
        · exact Or.inr (by simp [h2])

theorem mem_sortBySizeDesc {g : FieldDescriptor} {l : List FieldDescriptor}
    (h : g ∈ sortBySizeDesc l) : g ∈ l := by
  induction l with
  | nil => simp [sortBySizeDesc] at h
  | cons a as ih =>
    simp only [sortBySizeDesc] at h
    rcases mem_insertBySizeDesc h with h1 | h1
    · simp [h1]
    · exact List.mem_cons_of_mem _ (ih h1)

theorem mapLookup_mapInsert_ne (k k' : String) (v : Nat × JvmType)
    (m : List (String × Nat × JvmType)) (h : k' ≠ k) :
    mapLookup k (mapInsert k' v m) = mapLookup k m := by
  induction m with
  | nil => simp [mapInsert, mapLookup, h]
  | cons a as ih =>
    by_cases hc : a.1 = k'
    · simp [mapInsert, hc, mapLookup, h]
    · simp only [mapInsert, hc, if_false]
      by_cases hk : a.1 = k
      · simp [mapLookup, hk]
      · simp [mapLookup, hk, ih]

theorem placeLoop_lookup_ne (name : String) (fs : List FieldDescriptor) (st : LayoutState)
    (h : ∀ f ∈ fs, f.name ≠ name) :
    mapLookup name (placeLoop fs st).field_mappings = mapLookup name st.field_mappings := by
  induction fs generalizing st with
  | nil => simp [placeLoop]
  | cons f rest ih =>
    have hf : f.name ≠ name := h f (by simp)
    have hrest : ∀ g ∈ rest, g.name ≠ name := fun g hg => h g (by simp [hg])
    simp only [placeLoop]
    cases hscan : scanSpaces f.ty.size st.spaces with
    | some p => simpa using mapLookup_mapInsert_ne name f.name _ _ hf
    | none =>
      rw [ih _ hrest]
      simpa using mapLookup_mapInsert_ne name f.name _ _ hf

theorem copyParams_apply (base params : Nat) (h : params ≤ base) :
    ∀ (k : Nat), k ≤ params → ∀ (m : Mem) (j : Nat),
      copyParams base params k m j =
        if base ≤ j ∧ j < base + k then m (j - params) else m j := by
  intro k
  induction k with
  | zero =>
    intro _ m j
    have hno : ¬ (base ≤ j ∧ j < base) := by omega
    simp [copyParams, hno]
  | succ k ih =>
    intro hk m j
    have hk' : k ≤ params := Nat.le_of_succ_le hk
    simp only [copyParams, memSet]
    by_cases hj : j = base + k
    · have h1 : copyParams base params k m (base - params + k) = m (base - params + k) := by
        rw [ih hk' m (base - params + k)]
        have : ¬ (base ≤ base - params + k) := by omega
        simp [this]
      simp only [hj, if_pos rfl]
      rw [h1]
      have h2 : base ≤ base + k ∧ base + k < base + (k + 1) := by omega
      have h3 : base + k - params = base - params + k := by omega
      simp [h2, h3]
    · rw [if_neg hj, ih hk' m j]
      by_cases h4 : base ≤ j ∧ j < base + k
      · have h5 : base ≤ j ∧ j < base + (k + 1) := by omega
        simp [h4, h5]
      · have h5 : ¬ (base ≤ j ∧ j < base + (k + 1)) := by omega
        simp [h4, h5]

theorem ConstantPool.get_ok_pos {pool : ConstantPool} {i : Nat} {e : ConstantPoolEntry}
    (h : pool.get i = .ok e) : i ≠ 0 ∧ i - 1 < pool.length := by
  by_cases h0 : i = 0
  · simp [ConstantPool.get, h0] at h
  · refine ⟨h0, ?_⟩
    simp only [ConstantPool.get, h0, if_false] at h
    cases hg : pool.get? (i - 1) with
    | none => rw [hg] at h; exact absurd h (by simp)
    | some e' => exact (List.get?_eq_some.mp hg).choose

theorem ConstantPool.get_set_self {pool : ConstantPool} {i : Nat} (hi : i ≠ 0)
    (hlt : i - 1 < pool.length) (e : ConstantPoolEntry) :
    ConstantPool.get (pool.set (i - 1) e) i = .ok e := by
  simp [ConstantPool.get, hi, List.get?_eq_getElem?, List.getElem?_set_self, hlt]

theorem ConstantPool.get_update_resolved_field {pool : ConstantPool} {i : Nat}
    {e : ConstantPoolEntry} (h : pool.get i = .ok e) (info : FieldInfo) (cls : Nat) :
    (pool.update_resolved_field i info cls).get i =
      .ok (.fieldReference (.resolved info cls)) := by
  obtain ⟨h0, hlt⟩ := ConstantPool.get_ok_pos h
  exact ConstantPool.get_set_self h0 hlt _

theorem ConstantPool.get_update_resolved_static_method {pool : ConstantPool} {i : Nat}
    {e : ConstantPoolEntry} (h : pool.get i = .ok e) (method parameter_count : Nat) :
    (pool.update_resolved_static_method i method parameter_count).get i =
      .ok (.methodReference (.resolvedStatic method parameter_count)) := by
  obtain ⟨h0, hlt⟩ := ConstantPool.get_ok_pos h
  exact ConstantPool.get_set_self h0 hlt _

theorem libInv_init : LibInv LibState.init := by
  intro p hp
  simp [LibState.init] at hp

theorem libInv_step {s t : LibState} (hst : LoadStep s t) (hs : LibInv s) : LibInv t := by
  cases hst with
  | start name h =>
    intro p hp
    rcases hs p hp with h1 | h1 | h1
    · exact Or.inl h1
    · rw [h] at h1; exact absurd h1 (by simp)
    · rw [h] at h1; exact absurd h1 (by simp)
  | register name h =>
    intro p hp
    rcases List.mem_cons.mp hp with h1 | h1
    · subst h1; exact Or.inr (Or.inl rfl)
    · rcases hs p h1 with h2 | h2 | h2
      · exact Or.inl h2
      · rw [h] at h2; exact absurd h2 (by simp)
      · rw [h] at h2; exact absurd h2 (by simp)
  | clinitStart name idx h =>
    intro p hp
    rcases hs p hp with h1 | h1 | h1
    · exact Or.inl h1
    · rw [h] at h1
      have hname : p.1 = name ∧ p.2 = idx := by
        cases h1; exact ⟨rfl, rfl⟩
      exact Or.inr (Or.inr (by simp [hname.1, hname.2]))
    · rw [h] at h1; exact absurd h1 (by simp)
  | finish name idx h =>
    intro p hp
    rcases hs p hp with h1 | h1 | h1
    · exact Or.inl (List.mem_cons_of_mem _ h1)
    · rw [h] at h1; exact absurd h1 (by simp)
    · rw [h] at h1
      have hname : p.2 = idx := by cases h1; rfl
      exact Or.inl (by simp [hname])

theorem libInv_reachable {s : LibState} (h : LibReachable s) : LibInv s := by
  induction h with
  | refl => exact libInv_init
  | tail _ hstep ih => exact libInv_step hstep ih

theorem get_method_ok {pool : ConstantPool} {i : Nat} {r : MethodReference}
    (h : pool.get_method i = .ok r) : pool.get i = .ok (.methodReference r) := by
  unfold ConstantPool.get_method at h
  cases hg : pool.get i with
  | error e => rw [hg] at h; exact absurd h (by simp)
  | ok entry =>
    rw [hg] at h
    cases entry with
    | methodReference r' => cases h; rfl
    | utf8 s => exact absurd h (by simp)
    | integer v => exact absurd h (by simp)
    | long v => exact absurd h (by simp)
    | float b => exact absurd h (by simp)
    | double b => exact absurd h (by simp)
    | stringEntry s => exact absurd h (by simp)
    | classRef n => exact absurd h (by simp)
    | fieldReference r' => exact absurd h (by simp)
    | interfaceMethodReference a b => exact absurd h (by simp)
    | nameAndType a b => exact absurd h (by simp)
    | empty => exact absurd h (by simp)

/-- Shape of `resolve_instance_field`: it either returns an already
resolved entry with the pool unchanged, or succeeds through the unresolved
path and replaces exactly the entry at `i`, or fails with the pool
unchanged. -/
theorem resolve_instance_field_spec (classes : String → Option ClassR)
    (pool : ConstantPool) (i : Nat) :
    (∃ info cls, resolve_instance_field classes pool i = (.ok info, pool) ∧
      pool.get i = .ok (.fieldReference (.resolved info cls))) ∨
    (∃ info cls c n, pool.get i = .ok (.fieldReference (.unresolved c n)) ∧
      resolve_instance_field classes pool i =
        (.ok info, pool.update_resolved_field i info cls)) ∨
    (∃ e, resolve_instance_field classes pool i = (.error e, pool)) := by
  cases hg : pool.get i with
  | error e =>
    have hcomp : resolve_instance_field classes pool i = (.error (.constantPool e), pool) := by
      simp [resolve_instance_field, hg]
    exact Or.inr (Or.inr ⟨_, hcomp⟩)
  | ok entry =>
    cases entry with
    | fieldReference r =>
      cases r with
      | resolved info cls =>
        have hcomp : resolve_instance_field classes pool i = (.ok info, pool) := by
          simp [resolve_instance_field, hg]
        exact Or.inl ⟨info, cls, hcomp, rfl⟩
      | unresolved c n =>
        cases hnt : pool.get_name_and_type n with
        | error e =>
          have hcomp : resolve_instance_field classes pool i =
              (.error (.constantPool e), pool) := by
            simp [resolve_instance_field, hg, hnt]
          exact Or.inr (Or.inr ⟨_, hcomp⟩)
        | ok p =>
          obtain ⟨ni, ti⟩ := p
          cases hu : pool.get_utf8 ni with
          | error e =>
            have hcomp : resolve_instance_field classes pool i =
                (.error (.constantPool e), pool) := by
              simp [resolve_instance_field, hg, hnt, hu]
            exact Or.inr (Or.inr ⟨_, hcomp⟩)
          | ok name =>
            cases hc : pool.get_class c with
            | error e =>
              have hcomp : resolve_instance_field classes pool i =
                  (.error (.constantPool e), pool) := by
                simp [resolve_instance_field, hg, hnt, hu, hc]
              exact Or.inr (Or.inr ⟨_, hcomp⟩)
            | ok cni =>
              cases hu2 : pool.get_utf8 cni with
              | error e =>
                have hcomp : resolve_instance_field classes pool i =
                    (.error (.constantPool e), pool) := by
                  simp [resolve_instance_field, hg, hnt, hu, hc, hu2]
                exact Or.inr (Or.inr ⟨_, hcomp⟩)
              | ok cname =>
                cases hcl : classes cname with
                | none =>
                  have hcomp : resolve_instance_field classes pool i =
                      (.error (.classLoadFailed cname), pool) := by
                    simp [resolve_instance_field, hg, hnt, hu, hc, hu2, hcl]
                  exact Or.inr (Or.inr ⟨_, hcomp⟩)
                | some cl =>
                  cases hres : cl.field_layout.resolve name with
                  | error e =>
                    have hcomp : resolve_instance_field classes pool i =
                        (.error (.fieldNotResolvable e), pool) := by
                      simp [resolve_instance_field, hg, hnt, hu, hc, hu2, hcl, hres]
                    exact Or.inr (Or.inr ⟨_, hcomp⟩)
                  | ok info =>
                    have hcomp : resolve_instance_field classes pool i =
                        (.ok info, pool.update_resolved_field i info cl.index) := by
                      simp [resolve_instance_field, hg, hnt, hu, hc, hu2, hcl, hres]
                    exact Or.inr (Or.inl ⟨info, cl.index, c, n, rfl, hcomp⟩)
    | utf8 s =>
      have hcomp : resolve_instance_field classes pool i =
          (.error (.constantPool (.fieldNotResolvable i)), pool) := by
        simp [resolve_instance_field, hg]
      exact Or.inr (Or.inr ⟨_, hcomp⟩)
    | integer v =>
      have hcomp : resolve_instance_field classes pool i =
          (.error (.constantPool (.fieldNotResolvable i)), pool) := by
        simp [resolve_instance_field, hg]
      exact Or.inr (Or.inr ⟨_, hcomp⟩)
    | long v =>
      have hcomp : resolve_instance_field classes pool i =
          (.error (.constantPool (.fieldNotResolvable i)), pool) := by
        simp [resolve_instance_field, hg]
      exact Or.inr (Or.inr ⟨_, hcomp⟩)
    | float b =>
      have hcomp : resolve_instance_field classes pool i =
          (.error (.constantPool (.fieldNotResolvable i)), pool) := by
        simp [resolve_instance_field, hg]
      exact Or.inr (Or.inr ⟨_, hcomp⟩)
    | double b =>
      have hcomp : resolve_instance_field classes pool i =
          (.error (.constantPool (.fieldNotResolvable i)), pool) := by
        simp [resolve_instance_field, hg]
      exact Or.inr (Or.inr ⟨_, hcomp⟩)
    | stringEntry s =>
      have hcomp : resolve_instance_field classes pool i =
          (.error (.constantPool (.fieldNotResolvable i)), pool) := by
        simp [resolve_instance_field, hg]
      exact Or.inr (Or.inr ⟨_, hcomp⟩)
    | classRef n =>
      have hcomp : resolve_instance_field classes pool i =
          (.error (.constantPool (.fieldNotResolvable i)), pool) := by
        simp [resolve_instance_field, hg]
      exact Or.inr (Or.inr ⟨_, hcomp⟩)
    | methodReference r =>
      have hcomp : resolve_instance_field classes pool i =
          (.error (.constantPool (.fieldNotResolvable i)), pool) := by
        simp [resolve_instance_field, hg]
      exact Or.inr (Or.inr ⟨_, hcomp⟩)
    | interfaceMethodReference a b =>
      have hcomp : resolve_instance_field classes pool i =
          (.error (.constantPool (.fieldNotResolvable i)), pool) := by
        simp [resolve_instance_field, hg]
      exact Or.inr (Or.inr ⟨_, hcomp⟩)
    | nameAndType a b =>
      have hcomp : resolve_instance_field classes pool i =
          (.error (.constantPool (.fieldNotResolvable i)), pool) := by
        simp [resolve_instance_field, hg]
      exact Or.inr (Or.inr ⟨_, hcomp⟩)
    | empty =>
      have hcomp : resolve_instance_field classes pool i =
          (.error (.constantPool (.fieldNotResolvable i)), pool) := by
        simp [resolve_instance_field, hg]
      exact Or.inr (Or.inr ⟨_, hcomp⟩)

/-- Shape of `resolve_static_method`, analogous to
`resolve_instance_field_spec`. -/
theorem resolve_static_method_spec (classes : String → Option ClassR)
    (pool : ConstantPool) (i : Nat) :
    (∃ r, resolve_static_method classes pool i = (.ok r, pool) ∧
      pool.get_method i = .ok (.resolvedStatic r.1 r.2)) ∨
    (∃ (r : Nat × Nat) (c n : Nat),
      pool.get_method i = .ok (.unresolved c n) ∧
      resolve_static_method classes pool i =
        (.ok r, pool.update_resolved_static_method i r.1 r.2)) ∨
    (∃ e, resolve_static_method classes pool i = (.error e, pool)) := by
  cases hm : pool.get_method i with
  | error e =>
    have hcomp : resolve_static_method classes pool i = (.error (.constantPool e), pool) := by
      simp [resolve_static_method, hm]
    exact Or.inr (Or.inr ⟨_, hcomp⟩)
  | ok r =>
    cases r with
    | resolvedStatic idx pc =>
      have hcomp : resolve_static_method classes pool i = (.ok (idx, pc), pool) := by
        simp [resolve_static_method, hm]
      exact Or.inl ⟨(idx, pc), hcomp, rfl⟩
    | resolvedVirtual a b c =>
      have hcomp : resolve_static_method classes pool i = (.error (.notStatic i), pool) := by
        simp [resolve_static_method, hm]
      exact Or.inr (Or.inr ⟨_, hcomp⟩)
    | unresolved c n =>
      cases hnt : pool.get_name_and_type n with
      | error e =>
        have hcomp : resolve_static_method classes pool i =
            (.error (.constantPool e), pool) := by
          simp [resolve_static_method, hm, hnt]
        exact Or.inr (Or.inr ⟨_, hcomp⟩)
      | ok p =>
        obtain ⟨ni, ti⟩ := p
        cases hrt : pool.resolve_type c with
        | error e =>
          have hcomp : resolve_static_method classes pool i =
              (.error (.constantPool e), pool) := by
            simp [resolve_static_method, hm, hnt, hrt]
          exact Or.inr (Or.inr ⟨_, hcomp⟩)
        | ok cname =>
          cases hu : pool.get_utf8 ni with
          | error e =>
            have hcomp : resolve_static_method classes pool i =
                (.error (.constantPool e), pool) := by
              simp [resolve_static_method, hm, hnt, hrt, hu]
            exact Or.inr (Or.inr ⟨_, hcomp⟩)
          | ok name =>
            cases hcl : classes cname with
            | none =>
              have hcomp : resolve_static_method classes pool i =
                  (.error (.classLoadFailed cname), pool) := by
                simp [resolve_static_method, hm, hnt, hrt, hu, hcl]
              exact Or.inr (Or.inr ⟨_, hcomp⟩)
            | some cl =>
              cases hsm : cl.static_method name with
              | none =>
                have hcomp : resolve_static_method classes pool i =
                    (.error (.unknownStatic name), pool) := by
                  simp [resolve_static_method, hm, hnt, hrt, hu, hcl, hsm]
                exact Or.inr (Or.inr ⟨_, hcomp⟩)
              | some method =>
                have hcomp : resolve_static_method classes pool i =
                    (.ok method, pool.update_resolved_static_method i method.1 method.2) := by
                  simp [resolve_static_method, hm, hnt, hrt, hu, hcl, hsm]
                exact Or.inr (Or.inl ⟨method, c, n, rfl, hcomp⟩)

/-! ## Claim theorems -/

/-- C1: the claim states that `Heap::instantiate` writes the class index
as an 8-byte big-endian tag at the tail, materialises the constant field
bytes at `tail + 8`, and that a subsequent resolve reads the class index
back.  The code diverges: `set_class_index` skips offset `tail + 4` and
writes the last tag byte into `tail + 8`, so resolving a fresh instance of
the class with index 1 reads tag 0, not 1; and the field initialiser runs
at absolute offset 8, so a second instantiation (at tail 12) leaves its
constant `int 5` field bytes at offsets 8–11 and the byte at
`tail + 8 + offset + 3 = 23` still 0 instead of 5. -/
theorem c1_instantiate_divergence :
    ((Heap.instantiate ⟨memZero, 0⟩ ⟨1, FieldLayout.empty, []⟩).map
      (fun p => (Heap.resolveClassTag p.1 p.2, p.2)) = some (0, 0) ∧ (0 : Nat) ≠ 1) ∧
    ((Heap.instantiate ⟨memZero, 0⟩
        ⟨1, ⟨4, [("x", (0, .integer))], []⟩, [⟨"x", .publicV, .integer, some (.int 5)⟩]⟩).bind
      (fun p => Heap.instantiate p.1
        ⟨1, ⟨4, [("x", (0, .integer))], []⟩, [⟨"x", .publicV, .integer, some (.int 5)⟩]⟩)).map
      (fun p => (p.1.content 23, p.2)) = some (0, 12) ∧ (0 : Nat) ≠ 5 := by
  decide

/-- C2: the claim states that after a call through the protocol the
caller's top-of-stack pointer equals its pre-call value minus the callee's
`argc` plus `slots(return_type)`.  Executing the caller-side
`INVOKESTATIC` effect for a callee with `argc = 1` returning `int`
(`ILOAD_0; IRETURN`), from a caller frame whose stack end is 1 with the
argument 42 pushed at slot 0, yields stack end 2 — the argument slot is
never popped and the return value is pushed above it — where the claim
predicts 1 − 1 + 1 = 1. -/
theorem c2_invokestatic_leaves_arguments :
    (invokestaticStep 10 [⟨1, 1, [.iload_0, .ireturn], .integer⟩] 0
        (memSet memZero 0 42) ⟨0, 1⟩).map
      (fun p => (p.2.stack_end, p.1 0, p.1 1)) = some (2, 42, 42) ∧ (2 : Nat) ≠ 1 := by
  decide

/-- C3: the claim states every opcode implemented by both engines has the
same stack effect, in particular `LCONST_1`.  The compiled effect writes
the high word of the constant into both slots (`push_wide_constant` emits
`value.0` twice), leaving `(0, 0)`, while the interpreter's `push_wide`
leaves `(0, 1)` (high word then low word of the long 1). -/
theorem c3_lconst1_divergence :
    (jitOpEffect (.lconst 1) memZero 0).map (fun p => (p.1 0, p.1 1, p.2)) =
      some (0, 0, 2) ∧
    (interpOpEffect (.lconst 1) memZero 0).map (fun p => (p.1 0, p.1 1, p.2)) =
      some (0, 1, 2) ∧
    (0 : Nat) ≠ 1 := by
  decide

/-- C4: the claim states `layout_fields` places every field of the list.
On a parent layout with one free 4-byte space and two declared `int`
fields, the first field consumes the space and the `break 'field` of the
source exits the whole placement loop: the second field `d` is absent from
the resulting mapping. -/
theorem c4_layout_drops_fields :
    mapLookup "d" (layout_fields ⟨8, [], [⟨0, 4⟩]⟩
        [⟨"c", .publicV, .integer, none⟩, ⟨"d", .publicV, .integer, none⟩]).fields =
      none ∧
    mapLookup "c" (layout_fields ⟨8, [], [⟨0, 4⟩]⟩
        [⟨"c", .publicV, .integer, none⟩, ⟨"d", .publicV, .integer, none⟩]).fields =
      some (0, .integer) := by
  decide

/-- C5 (counterexample): the claim as stated fails when the child
redeclares a parent field name.  A parent declaring `int a` maps `a` to
`(0, int)`; laying out `long a` on top of it remaps `a` to `(8, long)`,
so the parent's pair is not preserved. -/
theorem c5_shadowing_counterexample :
    mapLookup "a" (layout_fields (layout_fields FieldLayout.empty
        [⟨"a", .publicV, .integer, none⟩]) [⟨"a", .publicV, .long, none⟩]).fields =
      some (8, .long) ∧
    mapLookup "a" (layout_fields FieldLayout.empty [⟨"a", .publicV, .integer, none⟩]).fields =
      some (0, .integer) ∧
    ((8 : Nat), JvmType.long) ≠ ((0 : Nat), JvmType.integer) := by
  decide

/-- C5 (amended): every field name present in the parent layout **and not
redeclared among the child's own fields** is mapped in the child layout to
the same `(offset, type)` pair as in the parent layout. -/
theorem c5_parent_fields_keep_offsets (parent : FieldLayout)
    (fields : List FieldDescriptor) (name : String)
    (h : ∀ f ∈ fields, f.name ≠ name) :
    mapLookup name (layout_fields parent fields).fields = mapLookup name parent.fields := by
  simp only [layout_fields]
  exact placeLoop_lookup_ne name _ _ (fun f hf => h f (mem_sortBySizeDesc hf))

/-- C5 (witness): the amended theorem applied to a parent mapping
`a ↦ (0, int)` and a child declaring only `b : long`. -/
theorem c5_parent_fields_keep_offsets_witness :
    mapLookup "a" (layout_fields ⟨4, [("a", (0, .integer))], []⟩
        [⟨"b", .publicV, .long, none⟩]).fields = some (0, .integer) := by
  rw [c5_parent_fields_keep_offsets ⟨4, [("a", (0, .integer))], []⟩
    [⟨"b", .publicV, .long, none⟩] "a" (by decide)]
  decide

/-- C6: the claim states the comparison opcodes push `+1`/`0`/`-1` for
greater/equal/less.  The source's `FCMPL` arm is transposed: it pushes
`JVM_LESS` when the operands are equal and `JVM_EQUAL` when the first is
less (its `DCMPL`/`FCMPG`/`DCMPG`/`LCMP` siblings push the JVM-correct
constants). -/
theorem c6_fcmpl_transposed :
    interpFCMPL .eq = JVM_LESS ∧ interpFCMPL .lt = JVM_EQUAL ∧
    interpDCMPL .eq = JVM_EQUAL ∧ interpFCMPG .eq = JVM_EQUAL ∧
    interpLCMP 3 3 = JVM_EQUAL ∧ JVM_LESS ≠ JVM_EQUAL := by
  decide

/-- C8 (counterexample): the claim states locals `argc..max_locals-1`
read as zero at frame entry.  `prepare` never zeroes them: with stack
slot 3 holding 7, the frame prepared at stack pointer 2 with one argument
and three locals reads 7 from local 1. -/
theorem c8_locals_not_zeroed :
    StackFrame.get_local (StackFrame.prepare (memSet memZero 3 7) 2 1 3).1
      (StackFrame.prepare (memSet memZero 3 7) 2 1 3).2 1 = 7 ∧ (7 : Nat) ≠ 0 := by
  decide

/-- C8 (amended): at entry to a frame prepared by
`StackFrame::prepare(stack, argc, max_locals)`, locals `0..argc-1` equal
the `argc` argument slots the caller pushed (in push order, i.e. the slots
just below the incoming stack pointer), and every local at index ≥ argc
reads whatever the underlying stack region already held at its slot (the
region is **not** zeroed). -/
theorem c8_prepare_locals (m : Mem) (stack parameters locals : Nat)
    (h : parameters ≤ stack) :
    (∀ i, i < parameters →
      StackFrame.get_local (StackFrame.prepare m stack parameters locals).1
        (StackFrame.prepare m stack parameters locals).2 i =
          m (stack - parameters + i)) ∧
    (∀ i, parameters ≤ i →
      StackFrame.get_local (StackFrame.prepare m stack parameters locals).1
        (StackFrame.prepare m stack parameters locals).2 i = m (stack + i)) := by
  constructor
  · intro i hi
    simp only [StackFrame.prepare, StackFrame.get_local]
    rw [copyParams_apply stack parameters h parameters le_rfl m (stack + i)]
    have hc : stack ≤ stack + i ∧ stack + i < stack + parameters := by omega
    have he : stack + i - parameters = stack - parameters + i := by omega
    rw [if_pos hc, he]
  · intro i hi
    simp only [StackFrame.prepare, StackFrame.get_local]
    rw [copyParams_apply stack parameters h parameters le_rfl m (stack + i)]
    have hc : ¬ (stack ≤ stack + i ∧ stack + i < stack + parameters) := by omega
    rw [if_neg hc]

/-- C8 (witness): the amended theorem applied at stack pointer 2 with one
parameter and three locals over the all-zero region: local 0 reads the
pushed argument slot at index 1, and local 2 reads the untouched slot at
index 4. -/
theorem c8_prepare_locals_witness :
    (1 : Nat) ≤ 2 ∧
    StackFrame.get_local (StackFrame.prepare memZero 2 1 3).1
      (StackFrame.prepare memZero 2 1 3).2 0 = memZero 1 ∧
    StackFrame.get_local (StackFrame.prepare memZero 2 1 3).1
      (StackFrame.prepare memZero 2 1 3).2 2 = memZero 4 :=
  ⟨by decide,
   (c8_prepare_locals memZero 2 1 3 (by decide)).1 0 (by decide),
   (c8_prepare_locals memZero 2 1 3 (by decide)).2 2 (by decide)⟩

/-- Supporting result: the field and static-method resolvers —
`resolve_instance_field` and `resolve_static_method`, whose matches do
handle the resolved form they store — are idempotent and atomic on
failure: a successful resolve of index `i` caches the resolved form
(`get` returns it) and resolving again returns the same result with the
pool unchanged, while every failure leaves the pool unchanged.  The
`INVOKESPECIAL` resolver `resolve_virtual_method_statically` does *not*
share this property (see the C7 theorem). -/
theorem resolution_idempotent_field_static (classes : String → Option ClassR)
    (pool : ConstantPool) (i : Nat) :
    (∀ info pool', resolve_instance_field classes pool i = (.ok info, pool') →
      resolve_instance_field classes pool' i = (.ok info, pool') ∧
      ∃ cls, pool'.get i = .ok (.fieldReference (.resolved info cls))) ∧
    (∀ e pool', resolve_instance_field classes pool i = (.error e, pool') → pool' = pool) ∧
    (∀ r pool', resolve_static_method classes pool i = (.ok r, pool') →
      resolve_static_method classes pool' i = (.ok r, pool') ∧
      pool'.get_method i = .ok (.resolvedStatic r.1 r.2)) ∧
    (∀ e pool', resolve_static_method classes pool i = (.error e, pool') → pool' = pool) := by
  refine ⟨?_, ?_, ?_, ?_⟩
  · intro info pool' h
    rcases resolve_instance_field_spec classes pool i with
      ⟨info0, cls0, hres, hget⟩ | ⟨info0, cls0, c, n, hget, hres⟩ | ⟨e, hres⟩
    · have heq := h.symm.trans hres
      have h2 : pool' = pool := congrArg Prod.snd heq
      have h3 : info = info0 := by
        have := congrArg Prod.fst heq
        simpa using this
      subst h2; subst h3
      exact ⟨hres, cls0, hget⟩
    · have heq := h.symm.trans hres
      have h2 : pool' = pool.update_resolved_field i info0 cls0 := congrArg Prod.snd heq
      have h3 : info = info0 := by
        have := congrArg Prod.fst heq
        simpa using this
      subst h3
      have hg' : ConstantPool.get pool' i =
          .ok (.fieldReference (.resolved info cls0)) := by
        rw [h2]; exact ConstantPool.get_update_resolved_field hget info cls0
      constructor
      · simp [resolve_instance_field, hg']
      · exact ⟨cls0, hg'⟩
    · have heq := h.symm.trans hres
      have := congrArg Prod.fst heq
      simp at this
  · intro e pool' h
    rcases resolve_instance_field_spec classes pool i with
      ⟨info0, cls0, hres, _⟩ | ⟨info0, cls0, c, n, _, hres⟩ | ⟨e0, hres⟩
    · have := congrArg Prod.fst (h.symm.trans hres)
      simp at this
    · have := congrArg Prod.fst (h.symm.trans hres)
      simp at this
    · exact congrArg Prod.snd (h.symm.trans hres)
  · intro r pool' h
    rcases resolve_static_method_spec classes pool i with
      ⟨r0, hres, hget⟩ | ⟨r0, c, n, hget, hres⟩ | ⟨e, hres⟩
    · have heq := h.symm.trans hres
      have h2 : pool' = pool := congrArg Prod.snd heq
      have h3 : r = r0 := by
        have := congrArg Prod.fst heq
        simpa using this
      subst h2; subst h3
      exact ⟨hres, hget⟩
    · have heq := h.symm.trans hres
      have h2 : pool' = pool.update_resolved_static_method i r0.1 r0.2 :=
        congrArg Prod.snd heq
      have h3 : r = r0 := by
        have := congrArg Prod.fst heq
        simpa using this
      subst h3
      have hg' : ConstantPool.get pool' i =
          .ok (.methodReference (.resolvedStatic r.1 r.2)) := by
        rw [h2]
        exact ConstantPool.get_update_resolved_static_method (get_method_ok hget) r.1 r.2
      have hm' : ConstantPool.get_method pool' i = .ok (.resolvedStatic r.1 r.2) := by
        unfold ConstantPool.get_method
        rw [hg']
      constructor
      · simp [resolve_static_method, hm']
      · exact hm'
    · have := congrArg Prod.fst (h.symm.trans hres)
      simp at this
  · intro e pool' h
    rcases resolve_static_method_spec classes pool i with
      ⟨r0, hres, _⟩ | ⟨r0, c, n, _, hres⟩ | ⟨e0, hres⟩
    · have := congrArg Prod.fst (h.symm.trans hres)
      simp at this
    · have := congrArg Prod.fst (h.symm.trans hres)
      simp at this
    · exact congrArg Prod.snd (h.symm.trans hres)

/-- The supporting result applied to the concrete pools: resolving the
already-resolved field pool (obtained from one successful resolve of
`F.x`) returns the same info and pool; likewise for the static method
`C.m`; and a failing resolve (dangling name-and-type index) leaves the
pool unchanged. -/
theorem resolution_idempotent_field_static_check :
    resolve_instance_field classesW fieldPoolW2 6 = (.ok ⟨0, .integer⟩, fieldPoolW2) ∧
    resolve_static_method classesW methodPoolW2 6 = (.ok (9, 0), methodPoolW2) ∧
    badFieldPoolW = badFieldPoolW :=
  ⟨((resolution_idempotent_field_static classesW fieldPoolW 6).1 ⟨0, .integer⟩ fieldPoolW2
      (by decide)).1,
   ((resolution_idempotent_field_static classesW methodPoolW 6).2.2.1 (9, 0) methodPoolW2
      (by decide)).1,
   (resolution_idempotent_field_static classesW badFieldPoolW 6).2.1
      (.constantPool (.missingEntry 99)) badFieldPoolW (by decide)⟩

/-- C7: the claim states that once a constant-pool field/method resolve of
index `i` succeeds, the entry is replaced in place by its resolved form and
every subsequent get/resolve of `i` returns that resolved form.  The
`INVOKESPECIAL` resolver `resolve_virtual_method_statically` violates
this: resolving the unresolved reference to the virtual method `C.v`
succeeds (method index 11, one parameter slot) and stores the
`ResolvedVirtual` form at entry 6 — which `get` returns — but the
resolver's own match has no `ResolvedVirtual` arm, so the second resolve
of the same entry falls into the catch-all and fails with
`NotStatic` instead of returning the resolved form. -/
theorem c7_invokespecial_resolution_not_idempotent :
    resolve_virtual_method_statically classesW vMethodPoolW 6 =
      (.ok (11, 1), vMethodPoolW2) ∧
    ConstantPool.get vMethodPoolW2 6 =
      .ok (.methodReference (.resolvedVirtual 11 2 1)) ∧
    resolve_virtual_method_statically classesW vMethodPoolW2 6 =
      (.error (.notStatic 6), vMethodPoolW2) ∧
    (Except.error (MethodErrorR.notStatic 6) : Except MethodErrorR (Nat × Nat)) ≠
      .ok (11, 1) := by
  decide

/-- C9: integer division and remainder wrap: `IDIV`/`IREM` on
`(INT_MIN, -1)` push `INT_MIN` and `0`, `LDIV`/`LREM` on `(LONG_MIN, -1)`
push `LONG_MIN` and `0`, and the only failing divisor is zero. -/
theorem c9_division_wraps :
    interpIDIV (-(2 ^ 31)) (-1) = some (-(2 ^ 31)) ∧
    interpIREM (-(2 ^ 31)) (-1) = some 0 ∧
    interpLDIV (-(2 ^ 63)) (-1) = some (-(2 ^ 63)) ∧
    interpLREM (-(2 ^ 63)) (-1) = some 0 ∧
    interpIDIV 1 0 = none ∧ interpIREM 1 0 = none ∧
    interpLDIV 1 0 = none ∧ interpLREM 1 0 = none := by
  decide

/-- C10 (counterexample): the claim states that in every reachable state a
retrievable class has completed its `<clinit>`.  The state in which class
`A` is registered (name map and class list) while its `<clinit>` is still
executing is reachable — `load` inserts and pushes the class *before*
calling `bootstrap` — and there `A` is retrievable with index 0 although
`0` is not among the completed initialisers. -/
theorem c10_retrievable_during_clinit :
    LibReachable libS3 ∧ libS3.retrievable "A" 0 ∧ ¬ (0 ∈ libS3.clinitDone) := by
  refine ⟨?_, ?_, ?_⟩
  · exact Relation.ReflTransGen.tail (Relation.ReflTransGen.tail
      (Relation.ReflTransGen.single (LoadStep.start LibState.init "A" rfl))
      (LoadStep.register libS1 "A" rfl)) (LoadStep.clinitStart libS2 "A" 0 rfl)
  · simp [LibState.retrievable, libS3]
  · simp [libS3]

/-- C10 (amended): a class becomes retrievable (it is inserted into the
name map and class list) *before* its `<clinit>` runs, so the claim fails
while a `<clinit>` executes; it holds at every quiescent state: in every
reachable state in which no load is in progress (`load` has returned),
every class retrievable through the library has completed its
`<clinit>`. -/
theorem c10_idle_classes_initialised (s : LibState) (h : LibReachable s)
    (hidle : s.phase = .idle) (name : String) (idx : Nat)
    (hr : s.retrievable name idx) : idx ∈ s.clinitDone := by
  rcases libInv_reachable h (name, idx) hr with h1 | h1 | h1
  · exact h1
  · rw [hidle] at h1; exact absurd h1 (by simp)
  · rw [hidle] at h1; exact absurd h1 (by simp)

/-- C10 (witness): the amended theorem applied to the quiescent state
reached after the full load of `A`: the retrievable class 0 has a
completed `<clinit>`. -/
theorem c10_idle_classes_initialised_witness : 0 ∈ libS4.clinitDone :=
  c10_idle_classes_initialised libS4
    (Relation.ReflTransGen.tail (Relation.ReflTransGen.tail (Relation.ReflTransGen.tail
      (Relation.ReflTransGen.single (LoadStep.start LibState.init "A" rfl))
      (LoadStep.register libS1 "A" rfl)) (LoadStep.clinitStart libS2 "A" 0 rfl))
      (LoadStep.finish libS3 "A" 0 rfl))
    rfl "A" 0 (by simp [LibState.retrievable, libS4])

end Jvm
